import Mathlib

/-
Verification development for the OptimalGolombRuler search engine.

The definitions below are shallow embeddings of the C++ sources:
  * `BitSet128_V3`  and its operations  — src/src/search_mpi_v3.cpp, lines 32-81
  * `BitSet128B.shl`                    — the branchless V6 bitset (search OpenMP V6 source)
  * the prefix generator, the iterative backtracking kernel and the top-level
    MPI V3 search                       — src/src/search_mpi_v3.cpp
  * `computePrefixDepthMPI_V3`          — src/src/search_mpi_v3.cpp, lines 282-301
  * `HypercubeMPI.allReduceMin`         — src/include/hypercube.hpp, lines 35-52
  * `GolombRuler.isValid`               — the golomb.hpp header (shown in search_v5.hpp pack)

C++ `uint64_t` values are modelled as `Nat` together with the well-formedness
predicate `< 2 ^ 64`; every operation that truncates in C carries an explicit
`% 2 ^ 64`.  C++ `int` values are modelled as `Int`.  All integer divisions in
the modelled code divide products of two consecutive integers, which are
nonnegative, so C truncated division agrees with Lean's `Int.tdiv`, which we
use throughout.
-/

-- ==========================================================================
-- 128-bit bitset (2 x uint64_t), branching version, search_mpi_v3.cpp 32-81
-- ==========================================================================

structure BitSet128_V3 where
  lo : Nat
  hi : Nat
deriving DecidableEq

/-- Both 64-bit lanes hold genuine `uint64_t` values. -/
def BitSet128_V3.WF (a : BitSet128_V3) : Prop := a.lo < 2 ^ 64 ∧ a.hi < 2 ^ 64

/-- C++ `set(pos)`: `lo |= 1 << pos` when `pos < 64`, else `hi |= 1 << (pos-64)`. -/
def BitSet128_V3.set (a : BitSet128_V3) (pos : Nat) : BitSet128_V3 :=
  if pos < 64 then ⟨a.lo ||| (1 <<< pos), a.hi⟩ else ⟨a.lo, a.hi ||| (1 <<< (pos - 64))⟩

/-- C++ `test(pos)`: `(lo >> pos) & 1` when `pos < 64`, else `(hi >> (pos-64)) & 1`. -/
def BitSet128_V3.test (a : BitSet128_V3) (pos : Nat) : Bool :=
  if pos < 64 then a.lo.testBit pos else a.hi.testBit (pos - 64)

/-- C++ `operator<<` of `BitSet128_V3` (branching version, lines 55-64). -/
def BitSet128_V3.shl (a : BitSet128_V3) (n : Nat) : BitSet128_V3 :=
  if n = 0 then a
  else if 128 ≤ n then ⟨0, 0⟩
  else if 64 ≤ n then ⟨0, (a.lo <<< (n - 64)) % 2 ^ 64⟩
  else ⟨(a.lo <<< n) % 2 ^ 64, ((a.hi <<< n) % 2 ^ 64) ||| (a.lo >>> (64 - n))⟩

/-- C++ `operator&`. -/
def BitSet128_V3.land (a b : BitSet128_V3) : BitSet128_V3 := ⟨a.lo &&& b.lo, a.hi &&& b.hi⟩

/-- C++ `operator^`. -/
def BitSet128_V3.lxor (a b : BitSet128_V3) : BitSet128_V3 := ⟨a.lo ^^^ b.lo, a.hi ^^^ b.hi⟩

/-- C++ `any()`: `(lo | hi) != 0`. -/
def BitSet128_V3.any (a : BitSet128_V3) : Bool := (a.lo ||| a.hi) != 0

-- ==========================================================================
-- Branchless bitset of the OpenMP V6 search (struct BitSet128B)
-- ==========================================================================

/-- Two's-complement negation of a `uint64_t` (C `-x` on unsigned). -/
def neg64 (x : Nat) : Nat := (2 ^ 64 - x) % 2 ^ 64

/-- Bitwise complement of a `uint64_t` (C `~x`). -/
def not64 (x : Nat) : Nat := x ^^^ (2 ^ 64 - 1)

/-- Wrapping subtraction of `uint64_t` values (C `a - b` on unsigned). -/
def sub64 (a b : Nat) : Nat := (a + 2 ^ 64 - b) % 2 ^ 64

structure BitSet128B where
  lo : Nat
  hi : Nat
deriving DecidableEq

/-- C++ `BitSet128B::operator<<`, the fully branchless shift of the V6 search.
`static_cast<uint64_t>(cond)` is `if cond then 1 else 0`; the `? :` on
`n_mod == 0` is kept as an `if`; everything else is mask arithmetic. -/
def BitSet128B.shl (a : BitSet128B) (n : Nat) : BitSet128B :=
  let zero_mask := sub64 (if n < 128 then 1 else 0) 1
  let identity_mask := sub64 (if n = 0 then 1 else 0) 1
  let n_mod := n &&& 63
  let n_inv := 64 - n_mod
  let ge64 : Nat := if 64 ≤ n then 1 else 0
  let new_lo_lt64 := (a.lo <<< n_mod) % 2 ^ 64
  let carry := if n_mod = 0 then 0 else a.lo >>> n_inv
  let new_hi_lt64 := ((a.hi <<< n_mod) % 2 ^ 64) ||| carry
  let new_lo_ge64 := 0
  let new_hi_ge64 := (a.lo <<< n_mod) % 2 ^ 64
  let new_lo_raw := (new_lo_lt64 &&& not64 (neg64 ge64)) ||| (new_lo_ge64 &&& neg64 ge64)
  let new_hi_raw := (new_hi_lt64 &&& not64 (neg64 ge64)) ||| (new_hi_ge64 &&& neg64 ge64)
  let new_lo := new_lo_raw &&& not64 zero_mask
  let new_hi := new_hi_raw &&& not64 zero_mask
  let final_lo := (new_lo &&& identity_mask) ||| (a.lo &&& not64 identity_mask)
  let final_hi := (new_hi &&& identity_mask) ||| (a.hi &&& not64 identity_mask)
  ⟨final_lo, final_hi⟩

-- ==========================================================================
-- Bit-level lemmas
-- ==========================================================================

theorem and_pow2_mask (x k : Nat) : x &&& (2 ^ k - 1) = x % 2 ^ k := by
  apply Nat.eq_of_testBit_eq
  intro i
  simp [Nat.testBit_and, Nat.testBit_two_pow_sub_one, Nat.testBit_mod_two_pow, Bool.and_comm]

theorem and_mask64_self (x : Nat) (h : x < 2 ^ 64) : x &&& (2 ^ 64 - 1) = x := by
  rw [and_pow2_mask, Nat.mod_eq_of_lt h]

theorem neg64_zero : neg64 0 = 0 := by decide

theorem neg64_one : neg64 1 = 18446744073709551615 := by decide

theorem not64_zero : not64 0 = 18446744073709551615 := by decide

theorem not64_ones : not64 18446744073709551615 = 0 := by decide

theorem sub64_one_one : sub64 1 1 = 0 := by decide

theorem sub64_zero_one : sub64 0 1 = 18446744073709551615 := by decide

theorem and_ones_lit (x : Nat) (h : x < 18446744073709551616) :
    x &&& 18446744073709551615 = x := by
  have h2 : (18446744073709551615 : Nat) = 2 ^ 64 - 1 := by norm_num
  rw [h2, and_pow2_mask]
  exact Nat.mod_eq_of_lt (by norm_num; omega)

theorem and_63_eq_mod (n : Nat) : n &&& 63 = n % 64 := by
  have h : (63 : Nat) = 2 ^ 6 - 1 := by norm_num
  rw [h, and_pow2_mask]
  norm_num

theorem testBit_of_ge_64 (x i : Nat) (hx : x < 2 ^ 64) (hi : 64 ≤ i) : x.testBit i = false :=
  Nat.testBit_lt_two_pow (lt_of_lt_of_le hx (Nat.pow_le_pow_right (by norm_num) hi))

theorem or_lt_U64 (x y : Nat) (hx : x < 18446744073709551616) (hy : y < 18446744073709551616) :
    x ||| y < 18446744073709551616 := by
  have e : (18446744073709551616 : Nat) = 2 ^ 64 := by norm_num
  rw [e] at hx hy ⊢
  exact Nat.or_lt_two_pow hx hy

theorem shiftRight_le_self (x n : Nat) : x >>> n ≤ x := by
  rw [Nat.shiftRight_eq_div_pow]
  exact Nat.div_le_self _ _

/-- Bits at positions 128 and above are never set in a well-formed bitset. -/
theorem BitSet128_V3.test_of_ge_128 (a : BitSet128_V3) (ha : a.WF) (p : Nat) (hp : 128 ≤ p) :
    a.test p = false := by
  unfold BitSet128_V3.test
  rw [if_neg (by omega)]
  exact testBit_of_ge_64 a.hi (p - 64) ha.2 (by omega)

/-- Characterization of the branching shift on bits 0..127. -/
theorem BitSet128_V3.test_shl (a : BitSet128_V3) (ha : a.WF) (k p : Nat) (hp : p ≤ 127) :
    (a.shl k).test p = (decide (k ≤ p) && a.test (p - k)) := by
  obtain ⟨hlo, hhi⟩ := ha
  unfold BitSet128_V3.shl BitSet128_V3.test
  by_cases h0 : k = 0
  · subst h0
    simp
  · rw [if_neg h0]
    by_cases h128 : 128 ≤ k
    · rw [if_pos h128]
      have hkp : ¬ (k ≤ p) := by omega
      simp [hkp, Nat.zero_testBit]
    · rw [if_neg h128]
      by_cases h64 : 64 ≤ k
      · rw [if_pos h64]
        by_cases hp64 : p < 64
        · have hkp : ¬ (k ≤ p) := by omega
          simp [hp64, hkp, Nat.zero_testBit]
        · rw [if_neg hp64]
          rw [Nat.testBit_mod_two_pow, Nat.testBit_shiftLeft]
          by_cases hkp : k ≤ p
          · have h1 : p - 64 < 64 := by omega
            have h2 : k - 64 ≤ p - 64 := by omega
            have h3 : p - 64 - (k - 64) = p - k := by omega
            have h4 : p - k < 64 := by omega
            simp [h1, h2, h3, hkp, h4]
          · have h2 : ¬ (k - 64 ≤ p - 64) := by omega
            simp [hkp, h2]
      · rw [if_neg h64]
        by_cases hp64 : p < 64
        · rw [if_pos hp64]
          rw [Nat.testBit_mod_two_pow, Nat.testBit_shiftLeft]
          by_cases hkp : k ≤ p
          · have h4 : p - k < 64 := by omega
            simp [hp64, hkp, h4]
          · simp [hkp]
        · rw [if_neg hp64]
          rw [Nat.testBit_or, Nat.testBit_mod_two_pow, Nat.testBit_shiftLeft,
            Nat.testBit_shiftRight]
          have hkp : k ≤ p := by omega
          have e1 : 64 - k + (p - 64) = p - k := by omega
          rw [e1]
          by_cases hsplit : p - k < 64
          · have h2 : ¬ (k ≤ p - 64) := by omega
            simp [hkp, hsplit, h2]
          · have h1 : p - 64 < 64 := by omega
            have h2 : k ≤ p - 64 := by omega
            have h3 : p - 64 - k = p - k - 64 := by omega
            have h5 : a.lo.testBit (p - k) = false :=
              testBit_of_ge_64 a.lo (p - k) hlo (by omega)
            simp [hkp, hsplit, h1, h2, h3, h5]

/-- The branchless shift agrees lane-by-lane with the branching shift. -/
theorem BitSet128B.shl_eq_v3 (a : BitSet128B) (ha : a.lo < 2 ^ 64 ∧ a.hi < 2 ^ 64) (n : Nat) :
    a.shl n = ⟨(BitSet128_V3.shl ⟨a.lo, a.hi⟩ n).lo, (BitSet128_V3.shl ⟨a.lo, a.hi⟩ n).hi⟩ := by
  obtain ⟨hlo, hhi⟩ := ha
  have hlo' : a.lo < 18446744073709551616 := lt_of_lt_of_le hlo (by norm_num)
  have hhi' : a.hi < 18446744073709551616 := lt_of_lt_of_le hhi (by norm_num)
  by_cases h0 : n = 0
  · subst h0
    simp [BitSet128B.shl, BitSet128_V3.shl, sub64_one_one, not64_zero, neg64_zero,
      not64_ones, and_ones_lit _ hlo', and_ones_lit _ hhi',
      Nat.mod_eq_of_lt hlo', Nat.mod_eq_of_lt hhi']
  · by_cases h128 : 128 ≤ n
    · have c1 : ¬ (n < 128) := by omega
      have c2 : 64 ≤ n := by omega
      simp [BitSet128B.shl, BitSet128_V3.shl, h0, h128, c1, c2, sub64_zero_one, not64_ones,
        neg64_one]
    · have c1 : n < 128 := by omega
      by_cases h64 : 64 ≤ n
      · have hmod : n &&& 63 = n - 64 := by
          rw [and_63_eq_mod]
          omega
        have hlt : (a.lo <<< (n - 64)) % 18446744073709551616 < 18446744073709551616 :=
          Nat.mod_lt _ (by norm_num)
        simp [BitSet128B.shl, BitSet128_V3.shl, h0, h128, c1, h64, hmod, sub64_one_one,
          sub64_zero_one, not64_zero, neg64_one, not64_ones, and_ones_lit _ hlt]
      · have hmod : n &&& 63 = n := by
          rw [and_63_eq_mod]
          omega
        have hlt1 : (a.lo <<< n) % 18446744073709551616 < 18446744073709551616 :=
          Nat.mod_lt _ (by norm_num)
        have hsh : a.lo >>> (64 - n) < 18446744073709551616 :=
          lt_of_le_of_lt (shiftRight_le_self _ _) hlo'
        have hlt2 : ((a.hi <<< n) % 18446744073709551616 ||| a.lo >>> (64 - n)) <
            18446744073709551616 := or_lt_U64 _ _ (Nat.mod_lt _ (by norm_num)) hsh
        simp [BitSet128B.shl, BitSet128_V3.shl, h0, h128, c1, h64, hmod, sub64_one_one,
          sub64_zero_one, not64_zero, neg64_zero, not64_ones, and_ones_lit _ hlt1,
          and_ones_lit _ hlt2]

-- ==========================================================================
-- Claim C4
-- ==========================================================================

/-- C4: both 128-bit left-shift implementations — the branching
`BitSet128_V3.shl` of search_mpi_v3.cpp and the branchless `BitSet128B.shl`
of the V6 search — compute the logical left shift: for a well-formed bitmap
`a` and any `k ≥ 0`, bit `p` (0 ≤ p ≤ 127) of `a << k` is set iff `k ≤ p` and
bit `p - k` of `a` is set, bits shifted beyond position 127 are discarded,
and for `k ≥ 128` the result is all-zero. -/
theorem bitset128_shl_spec (a : BitSet128_V3) (ha : a.WF) (k : Nat) :
    (∀ p : Nat, p ≤ 127 → ((a.shl k).test p = true ↔ k ≤ p ∧ a.test (p - k) = true))
    ∧ (128 ≤ k → a.shl k = ⟨0, 0⟩)
    ∧ BitSet128B.shl ⟨a.lo, a.hi⟩ k = ⟨(a.shl k).lo, (a.shl k).hi⟩ := by
  refine ⟨?_, ?_, ?_⟩
  · intro p hp
    rw [BitSet128_V3.test_shl a ha k p hp]
    simp
  · intro h
    unfold BitSet128_V3.shl
    rw [if_neg (by omega), if_pos h]
  · exact BitSet128B.shl_eq_v3 ⟨a.lo, a.hi⟩ ha k

/-- Witness for C4 at the concrete input `a = 1` (bit 0 set), `k = 64`. -/
theorem bitset128_shl_spec_witness :
    ((⟨1, 0⟩ : BitSet128_V3).shl 64).test 64 = true :=
  ((bitset128_shl_spec ⟨1, 0⟩ ⟨by norm_num, by norm_num⟩ 64).1 64 (by norm_num)).mpr
    ⟨by norm_num, by decide⟩

-- ==========================================================================
-- Prefix depth (search_mpi_v3.cpp lines 282-301) — claim C6
-- ==========================================================================

/-- C++ `computePrefixDepthMPI_V3`. -/
def computePrefixDepthMPI_V3 (n numProcesses threadsPerProcess : Int) : Int :=
  let totalWorkers := numProcesses * threadsPerProcess
  if n ≤ 6 then 2
  else if n ≤ 8 then 3
  else if n ≤ 10 then 3
  else if n ≤ 12 then 4
  else if n ≤ 14 then 4
  else if n ≤ 16 then 5
  else
    let depth : Int := if 64 < totalWorkers then 6 else 5
    let depth2 := if n - 2 ≤ depth then n - 3 else depth
    if depth2 < 2 then 2 else depth2

/-- C6 counterexample: at n = 4 the computed depth is 2, which is not in the
claimed interval [2, n-3] = [2, 1]; moreover at n = 13 the code returns depth 4
while the claimed tier (D = 5 for n ≤ 16 above 12) says 5. -/
theorem computePrefixDepth_c6_counterexample :
    computePrefixDepthMPI_V3 4 1 1 = 2
    ∧ ¬ (computePrefixDepthMPI_V3 4 1 1 ≤ (4 : Int) - 3)
    ∧ computePrefixDepthMPI_V3 13 1 1 = 4 := by
  decide

set_option maxHeartbeats 1000000 in
/-- C6 amended: for every n in [2, 24] and worker counts ≥ 1 the prefix depth
follows the code's tier — 2 for n ≤ 6, 3 for n ≤ 10, 4 for n ≤ 14 (not 5 for
n = 13, 14 as the spec tier says), 5 for n ≤ 16, and for n ≥ 17 it is 6 when
numProcesses * threadsPerProcess > 64 and 5 otherwise; the containment
D ∈ [2, n-3] holds for n ≥ 5 but fails for n ∈ {2, 3, 4} where D = 2 > n - 3. -/
theorem computePrefixDepth_tiers (n p t : Int) (hn1 : 2 ≤ n) (hn2 : n ≤ 24)
    (hp : 1 ≤ p) (ht : 1 ≤ t) :
    (n ≤ 6 → computePrefixDepthMPI_V3 n p t = 2)
    ∧ (7 ≤ n → n ≤ 10 → computePrefixDepthMPI_V3 n p t = 3)
    ∧ (11 ≤ n → n ≤ 14 → computePrefixDepthMPI_V3 n p t = 4)
    ∧ (15 ≤ n → n ≤ 16 → computePrefixDepthMPI_V3 n p t = 5)
    ∧ (17 ≤ n → computePrefixDepthMPI_V3 n p t = (if 64 < p * t then 6 else 5))
    ∧ (5 ≤ n → 2 ≤ computePrefixDepthMPI_V3 n p t
        ∧ computePrefixDepthMPI_V3 n p t ≤ n - 3) := by
  unfold computePrefixDepthMPI_V3
  generalize p * t = w
  dsimp only
  split_ifs <;> omega

/-- Witness for the amended C6 at n = 13 with one process and one thread. -/
theorem computePrefixDepth_tiers_witness : computePrefixDepthMPI_V3 13 1 1 = 4 :=
  (computePrefixDepth_tiers 13 1 1 (by norm_num) (by norm_num) (by norm_num)
    (by norm_num)).2.2.1 (by norm_num) (by norm_num)

-- ==========================================================================
-- Hypercube all-reduce (hypercube.hpp lines 35-52) — claim C5
-- ==========================================================================

/-- C++ `HypercubeMPI::allReduceMin`, modelled for a synchronous execution with
`P = 2 ^ dims` ranks where rank `r` holds input `x r`.  In round `d` each rank
exchanges with partner `r XOR 2^d` via `MPI_Sendrecv`; the send buffer is the
UNCHANGED original `localMin` (the accumulated `globalMin` is never sent), so
the value received from the partner in round `d` is the partner's original
input `x (r XOR 2^d)`, independent of interleaving. -/
def HypercubeMPI.allReduceMin (dims : Nat) (x : Nat → Int) (rank : Nat) : Int :=
  (List.range dims).foldl
    (fun globalMin d =>
      if x (rank ^^^ (1 <<< d)) < globalMin then x (rank ^^^ (1 <<< d)) else globalMin)
    (x rank)

/-- C5 evaluation at the failing input: with P = 4 ranks holding inputs
(5, 5, 5, 0), the hypercube exchange returns 5 at rank 0 — rank 0 only ever
receives the original inputs of ranks 1 and 2 — although the minimum over all
ranks is 0, held by rank 3. -/
theorem hypercube_allReduceMin_not_global_min :
    HypercubeMPI.allReduceMin 2 (fun i => if i = 3 then 0 else 5) 0 = 5
    ∧ (fun i : Nat => if i = 3 then (0 : Int) else 5) 3 = 0
    ∧ ¬ (HypercubeMPI.allReduceMin 2 (fun i => if i = 3 then 0 else 5) 0 ≤ 0) := by
  refine ⟨by decide, by decide, by decide⟩

-- ==========================================================================
-- GolombRuler::isValid (golomb.hpp) — claim C10
-- ==========================================================================

/-- Inner loop of `GolombRuler::isValid` for a fixed `marks[i] = mi`: walks the
later marks, rejecting a difference `d = marks[j] - mi` that reaches
MAX_DIFF = 256 or repeats one already in `seen`; otherwise returns the enlarged
seen-set.  The C++ `std::bitset<256>` index is modelled as a set of integers;
on the claim's inputs every difference is a valid bitset index and the two
agree. -/
def isValidInner (mi : Int) (rest : List Int) (seen : Finset Int) : Option (Finset Int) :=
  match rest with
  | [] => some seen
  | mj :: tl =>
    let d := mj - mi
    if 256 ≤ d then none
    else if d ∈ seen then none
    else isValidInner mi tl (insert d seen)

/-- Outer loop of `GolombRuler::isValid` over the index `i`. -/
def isValidOuter (marks : List Int) (seen : Finset Int) : Bool :=
  match marks with
  | [] => true
  | mi :: tl =>
    match isValidInner mi tl seen with
    | none => false
    | some seen2 => isValidOuter tl seen2

/-- C++ `GolombRuler::isValid(marks)`. -/
def GolombRuler.isValid (marks : List Int) : Bool := isValidOuter marks ∅

/-- All pairwise differences marks[j] - marks[i] (i < j), listed in the
iteration order of `GolombRuler::isValid`. -/
def pairDiffs : List Int → List Int
  | [] => []
  | mi :: tl => tl.map (fun mj => mj - mi) ++ pairDiffs tl

theorem isValidInner_some_mem (mi : Int) :
    ∀ (rest : List Int) (seen s' : Finset Int),
      isValidInner mi rest seen = some s' →
      ∀ x : Int, x ∈ s' ↔ (x ∈ seen ∨ x ∈ rest.map (fun mj => mj - mi)) := by
  intro rest
  induction rest with
  | nil =>
    intro seen s' h x
    simp only [isValidInner, Option.some.injEq] at h
    subst h
    simp
  | cons mj tl ih =>
    intro seen s' h x
    simp only [isValidInner] at h
    by_cases h1 : (256 : Int) ≤ mj - mi
    · rw [if_pos h1] at h
      cases h
    · rw [if_neg h1] at h
      by_cases h2 : mj - mi ∈ seen
      · rw [if_pos h2] at h
        cases h
      · rw [if_neg h2] at h
        rw [ih _ _ h x]
        simp only [Finset.mem_insert, List.map_cons, List.mem_cons]
        tauto

theorem isValidInner_ne_none (mi : Int) :
    ∀ (rest : List Int) (seen : Finset Int),
      isValidInner mi rest seen ≠ none ↔
        ((∀ d ∈ rest.map (fun mj => mj - mi), d < 256 ∧ d ∉ seen)
          ∧ (rest.map (fun mj => mj - mi)).Nodup) := by
  intro rest
  induction rest with
  | nil =>
    intro seen
    simp [isValidInner]
  | cons mj tl ih =>
    intro seen
    simp only [isValidInner, List.map_cons]
    by_cases h1 : (256 : Int) ≤ mj - mi
    · rw [if_pos h1]
      constructor
      · intro hc
        exact absurd rfl hc
      · intro hc _
        exact absurd (hc.1 (mj - mi) (by simp)).1 (by omega)
    · rw [if_neg h1]
      by_cases h2 : mj - mi ∈ seen
      · rw [if_pos h2]
        constructor
        · intro hc
          exact absurd rfl hc
        · intro hc _
          exact (hc.1 (mj - mi) (by simp)).2 h2
      · rw [if_neg h2]
        rw [ih (insert (mj - mi) seen)]
        constructor
        · rintro ⟨hall, hnd⟩
          have hmem : (mj - mi) ∉ tl.map (fun x => x - mi) := by
            intro hm
            exact (hall _ hm).2 (Finset.mem_insert_self _ _)
          refine ⟨?_, List.nodup_cons.mpr ⟨hmem, hnd⟩⟩
          intro d hd
          rcases List.mem_cons.mp hd with h | h
          · subst h
            exact ⟨by omega, h2⟩
          · have hda := hall d h
            refine ⟨hda.1, ?_⟩
            intro hds
            exact hda.2 (Finset.mem_insert_of_mem hds)
        · rintro ⟨hall, hnd⟩
          rcases List.nodup_cons.mp hnd with ⟨hmem, hnd2⟩
          refine ⟨?_, hnd2⟩
          intro d hd
          have hda := hall d (List.mem_cons_of_mem _ hd)
          refine ⟨hda.1, ?_⟩
          intro hins
          rcases Finset.mem_insert.mp hins with h | h
          · subst h
            exact hmem hd
          · exact hda.2 h

theorem isValidOuter_iff : ∀ (marks : List Int) (seen : Finset Int),
    isValidOuter marks seen = true ↔
      ((∀ d ∈ pairDiffs marks, d < 256 ∧ d ∉ seen) ∧ (pairDiffs marks).Nodup) := by
  intro marks
  induction marks with
  | nil =>
    intro seen
    simp [isValidOuter, pairDiffs]
  | cons mi tl ih =>
    intro seen
    have hout : isValidOuter (mi :: tl) seen =
        (match isValidInner mi tl seen with
          | none => false
          | some seen2 => isValidOuter tl seen2) := rfl
    rw [hout]
    cases hin : isValidInner mi tl seen with
    | none =>
      change false = true ↔ _
      simp only [pairDiffs]
      constructor
      · intro hfalse
        cases hfalse
      · rintro ⟨hall, hnd⟩
        have hne := (isValidInner_ne_none mi tl seen).mpr
          ⟨fun d hd => hall d (List.mem_append_left _ hd), (List.nodup_append.mp hnd).1⟩
        exact absurd hin hne
    | some s2 =>
      change isValidOuter tl s2 = true ↔ _
      simp only [pairDiffs]
      rw [ih s2]
      have hmem := isValidInner_some_mem mi tl seen s2 hin
      have hsucc := (isValidInner_ne_none mi tl seen).mp (by rw [hin]; simp)
      constructor
      · rintro ⟨hall2, hnd2⟩
        refine ⟨?_, ?_⟩
        · intro d hd
          rcases List.mem_append.mp hd with h | h
          · exact hsucc.1 d h
          · have hda := hall2 d h
            have hnotin : d ∉ s2 := hda.2
            rw [hmem d] at hnotin
            push_neg at hnotin
            exact ⟨hda.1, hnotin.1⟩
        · rw [List.nodup_append]
          refine ⟨hsucc.2, hnd2, ?_⟩
          intro x hx1 hx2
          have hda := hall2 x hx2
          have hnotin : x ∉ s2 := hda.2
          rw [hmem x] at hnotin
          push_neg at hnotin
          exact hnotin.2 hx1
      · rintro ⟨hall, hnd⟩
        rw [List.nodup_append] at hnd
        refine ⟨?_, hnd.2.1⟩
        intro d hd
        have h1 := hall d (List.mem_append_right _ hd)
        refine ⟨h1.1, ?_⟩
        rw [hmem d]
        push_neg
        refine ⟨h1.2, ?_⟩
        intro hdm
        exact hnd.2.2 hdm hd

-- ==========================================================================
-- Claim C10
-- ==========================================================================

/-- C10: for a strictly ascending list of marks, `GolombRuler::isValid` returns
true iff every pairwise difference marks[j] - marks[i] (j > i) is below
MAX_DIFF = 256 and all the pairwise differences are distinct; and without the
strictly-ascending precondition the function performs no ordering or
positivity check — the list [0, 0], whose single difference is the zero
difference, is accepted. -/
theorem golombRuler_isValid_spec :
    (∀ marks : List Int, marks.Chain' (· < ·) →
      (GolombRuler.isValid marks = true ↔
        (∀ d ∈ pairDiffs marks, d < 256) ∧ (pairDiffs marks).Nodup))
    ∧ GolombRuler.isValid [0, 0] = true := by
  constructor
  · intro marks _
    unfold GolombRuler.isValid
    rw [isValidOuter_iff]
    simp
  · decide

/-- Witness for C10 at the ascending input [0, 1, 3]. -/
theorem golombRuler_isValid_spec_witness : GolombRuler.isValid [0, 1, 3] = true :=
  (golombRuler_isValid_spec.1 [0, 1, 3]
    (by norm_num [List.chain'_cons, List.chain'_singleton])).mpr (by decide)

-- ==========================================================================
-- Claim C8 — monotone global bound
-- ==========================================================================

/-- A successful store into the shared `global_bound` atomic during one run.
A `compare_exchange_weak(expected, v)` succeeds only when the atomic still
holds `expected`, and both CAS loops in the source — the kernel's solution
publication (search_mpi_v3.cpp lines 246-251, storing `solutionLen`) and the
CAS fold of an all-reduce result (lines 430-434 and 447-451, storing
`globalMin`) — attempt the CAS only while the new value is strictly below
`expected`.  Hence a successful store replaces the current value `cur` by `v`
with `v < cur`. -/
inductive GlobalBoundStore : Int → Int → Prop
  | kernelCAS (cur solutionLen : Int) : solutionLen < cur → GlobalBoundStore cur solutionLen
  | allReduceFold (cur globalMin : Int) : globalMin < cur → GlobalBoundStore cur globalMin

/-- The successive values stored into `global_bound` within a single run,
starting from the initial value `b`. -/
inductive GlobalBoundTrace : Int → List Int → Prop
  | nil (b : Int) : GlobalBoundTrace b []
  | cons (b v : Int) (l : List Int) : GlobalBoundStore b v → GlobalBoundTrace v l →
      GlobalBoundTrace b (v :: l)

/-- C8: within a single run of the search, every value successfully stored
into `global_bound` — by the kernel's CAS after finding a complete ruler or by
the CAS fold of an all-reduce result — is strictly smaller than the value it
replaces, so the sequence of values stored into `global_bound` is strictly
decreasing. -/
theorem globalBound_strictly_decreasing (b : Int) (l : List Int)
    (h : GlobalBoundTrace b l) : List.Chain (fun x y => y < x) b l := by
  induction h with
  | nil => exact List.Chain.nil
  | cons b v l hs _ ih =>
    cases hs with
    | kernelCAS hlt => exact List.Chain.cons hlt ih
    | allReduceFold hlt => exact List.Chain.cons hlt ih

/-- Witness for C8: the store trace 128 → 11 → 3 (a kernel CAS then an
all-reduce fold) is strictly decreasing. -/
theorem globalBound_strictly_decreasing_witness :
    List.Chain (fun x y : Int => y < x) 128 [11, 3] :=
  globalBound_strictly_decreasing 128 [11, 3]
    (GlobalBoundTrace.cons _ _ _ (GlobalBoundStore.kernelCAS _ _ (by norm_num))
      (GlobalBoundTrace.cons _ _ _ (GlobalBoundStore.allReduceFold _ _ (by norm_num))
        (GlobalBoundTrace.nil 3)))

-- ==========================================================================
-- MPI V3 search model (search_mpi_v3.cpp), specialized to one rank and one
-- thread (W = 1): with a single process every MPI collective reduces the
-- rank's own value with itself, and with a single OpenMP thread the
-- dynamically scheduled loop processes the prefixes in order, so the whole
-- search is deterministic.
-- ==========================================================================

/-- C++ `WorkItemMPI_V3` (lines 86-91). -/
structure WorkItemMPI_V3 where
  reversed_marks : BitSet128_V3
  used_dist : BitSet128_V3
  marks_count : Int
  ruler_length : Int
deriving DecidableEq

/-- C++ `StackFrameMPI_V3` (lines 96-102). -/
structure StackFrameMPI_V3 where
  reversed_marks : BitSet128_V3
  used_dist : BitSet128_V3
  marks_count : Int
  ruler_length : Int
  next_candidate : Int
deriving DecidableEq

/-- C++ `ThreadBestMPI_V3` (lines 107-111); `bestNumMarks` mirrors the
separate C++ counter, which always equals the number of stored marks. -/
structure ThreadBestMPI_V3 where
  bestLen : Int
  bestMarks : List Int
  bestNumMarks : Int
deriving DecidableEq

/-- C++ `extractMarksMPI_V3` (lines 116-124): mark `i` is reported iff bit
`ruler_length - i` of `reversed_marks` is set, for `i = 0 .. ruler_length`. -/
def extractMarksMPI_V3 (reversed_marks : BitSet128_V3) (ruler_length : Int) : List Int :=
  (List.range (ruler_length.toNat + 1)).filterMap
    (fun i => if reversed_marks.test (ruler_length.toNat - i) then some (i : Int) else none)

/-- C++ `GolombRuler` result record (golomb.hpp). -/
structure GolombRuler where
  marks : List Int
  length : Int
deriving DecidableEq

/-- C++ `GolombRuler::computeLength()`: `length = marks.empty() ? 0 : marks.back()`. -/
def computeLengthFrom (marks : List Int) : Int := (marks.getLast?).getD 0

/-- The `for (pos = min_pos; pos <= max_pos; ++pos)` loop of
`generatePrefixesMPI_V3` (lines 160-176), with `cnt` the number of remaining
iterations (`max_pos + 1 - pos`) and `recurse` the recursive call at depth
`marks_count + 1`.  `new_reversed` recomputes the same shift as `new_dist`
before setting bit 0, exactly as the source does. -/
def genLoopMPI_V3 (recurse : BitSet128_V3 → BitSet128_V3 → Int → List WorkItemMPI_V3)
    (reversed_marks used_dist : BitSet128_V3) (ruler_length : Int)
    (pos : Int) (cnt : Nat) : List WorkItemMPI_V3 :=
  match cnt with
  | 0 => []
  | cnt + 1 =>
    let offset := pos - ruler_length
    let new_dist := reversed_marks.shl offset.toNat
    if (new_dist.land used_dist).any then
      genLoopMPI_V3 recurse reversed_marks used_dist ruler_length (pos + 1) cnt
    else
      let new_reversed := (reversed_marks.shl offset.toNat).set 0
      let new_used := used_dist.lxor new_dist
      recurse new_reversed new_used pos
        ++ genLoopMPI_V3 recurse reversed_marks used_dist ruler_length (pos + 1) cnt

/-- C++ `generatePrefixesMPI_V3` (lines 129-177).  The recursion is driven by
the explicit `fuel` argument; every concrete use below provides more fuel than
the recursion (whose depth grows toward `target_depth`) can consume. -/
def generatePrefixesMPI_V3 (fuel : Nat) (reversed_marks used_dist : BitSet128_V3)
    (marks_count ruler_length target_depth target_marks maxLen : Int) :
    List WorkItemMPI_V3 :=
  match fuel with
  | 0 => []
  | fuel + 1 =>
    if marks_count = target_depth then
      [⟨reversed_marks, used_dist, marks_count, ruler_length⟩]
    else
      let remaining := target_marks - marks_count
      let min_additional := Int.tdiv (remaining * (remaining + 1)) 2
      if maxLen ≤ ruler_length + min_additional then []
      else
        let min_pos := ruler_length + 1
        let max_remaining := Int.tdiv ((remaining - 1) * remaining) 2
        let max_pos := maxLen - max_remaining - 1
        genLoopMPI_V3
          (fun rev used pos => generatePrefixesMPI_V3 fuel rev used (marks_count + 1) pos
            target_depth target_marks maxLen)
          reversed_marks used_dist ruler_length min_pos ((max_pos + 1 - min_pos).toNat)

/-- Result of one run of the kernel's candidate loop on the top stack frame:
either a child frame was pushed (carrying the parent's updated
`next_candidate`), or the candidate range was exhausted. -/
inductive ScanResultMPI_V3 where
  | push (parentNext : Int) (child : StackFrameMPI_V3) (best : ThreadBestMPI_V3) (bound : Int)
  | exhausted (best : ThreadBestMPI_V3) (bound : Int)
deriving DecidableEq

/-- The kernel's `for (pos = startNext; pos <= max_pos; ++pos)` loop
(backtrackIterativeMPI_V3, lines 218-271): `cnt` counts the remaining
iterations (`max_pos + 1 - pos`).  `bound` is the process-local
`globalBestLen` atomic; with a single thread the relaxed re-load at the top of
each iteration reads the value this loop last stored, and the CAS loop after a
complete ruler (lines 246-250) stores `pos` exactly when `pos < bound`.
The child's `reversed_marks` recomputes the same shift as `new_dist` before
setting bit 0, and its `used_dist` is the lane-wise xor of lines 260-261. -/
def scanCandidatesMPI_V3 (n : Int) (frame : StackFrameMPI_V3) (pos : Int) (cnt : Nat)
    (best : ThreadBestMPI_V3) (bound : Int) : ScanResultMPI_V3 :=
  match cnt with
  | 0 => .exhausted best bound
  | cnt + 1 =>
    if bound ≤ pos then .exhausted best bound
    else
      let offset := pos - frame.ruler_length
      let new_dist := frame.reversed_marks.shl offset.toNat
      if (new_dist.land frame.used_dist).any then
        scanCandidatesMPI_V3 n frame (pos + 1) cnt best bound
      else
        let newMarksCount := frame.marks_count + 1
        if newMarksCount = n then
          if pos < best.bestLen then
            let final_marks := (frame.reversed_marks.shl offset.toNat).set 0
            let marks := extractMarksMPI_V3 final_marks pos
            let best2 : ThreadBestMPI_V3 := ⟨pos, marks, (marks.length : Int)⟩
            let bound2 := if pos < bound then pos else bound
            scanCandidatesMPI_V3 n frame (pos + 1) cnt best2 bound2
          else
            scanCandidatesMPI_V3 n frame (pos + 1) cnt best bound
        else
          .push (pos + 1)
            ⟨new_dist.set 0, frame.used_dist.lxor new_dist, newMarksCount, pos, 0⟩
            best bound

/-- C++ `backtrackIterativeMPI_V3` (lines 182-277), with the frame array
replaced by a list holding the frames from the top of the stack downward and
an explicit `fuel` bound on the iterations of the outer `while` loop (claim C9
proves a sufficient fuel).  Returns `none` iff the fuel runs out before the
stack empties. -/
def backtrackLoopMPI_V3 (fuel : Nat) (n : Int) (stack : List StackFrameMPI_V3)
    (best : ThreadBestMPI_V3) (bound : Int) : Option (ThreadBestMPI_V3 × Int) :=
  match fuel with
  | 0 => none
  | fuel + 1 =>
    match stack with
    | [] => some (best, bound)
    | frame :: rest =>
      let r := n - frame.marks_count
      let minAdditionalLength := Int.tdiv (r * (r + 1)) 2
      if bound ≤ frame.ruler_length + minAdditionalLength then
        backtrackLoopMPI_V3 fuel n rest best bound
      else
        let min_pos := frame.ruler_length + 1
        let max_remaining := Int.tdiv ((r - 1) * r) 2
        let max_pos := bound - max_remaining - 1
        let startNext := if frame.next_candidate = 0 then min_pos else frame.next_candidate
        match scanCandidatesMPI_V3 n frame startNext ((max_pos + 1 - startNext).toNat)
            best bound with
        | .exhausted best2 bound2 => backtrackLoopMPI_V3 fuel n rest best2 bound2
        | .push parentNext child best2 bound2 =>
          backtrackLoopMPI_V3 fuel n
            (child :: { frame with next_candidate := parentNext } :: rest) best2 bound2

/-- Kernel fuel used by the search model; far more than any concrete run below
consumes. -/
def kernelFuelMPI_V3 : Nat := 1000000000

/-- The per-prefix body of the parallel loop (lines 379-399): the prefix-level
pruning check against the current bound, then the kernel on a fresh stack
seeded from the prefix with `next_candidate = 0`. -/
def runPrefixesMPI_V3 (n : Int) (items : List WorkItemMPI_V3)
    (threadBest : ThreadBestMPI_V3) (bound : Int) : Option (ThreadBestMPI_V3 × Int) :=
  match items with
  | [] => some (threadBest, bound)
  | item :: rest =>
    let remaining := n - item.marks_count
    let minAdditional := Int.tdiv (remaining * (remaining + 1)) 2
    if bound ≤ item.ruler_length + minAdditional then
      runPrefixesMPI_V3 n rest threadBest bound
    else
      match backtrackLoopMPI_V3 kernelFuelMPI_V3 n
          [⟨item.reversed_marks, item.used_dist, item.marks_count, item.ruler_length, 0⟩]
          threadBest bound with
      | none => none
      | some (tb2, bound2) => runPrefixesMPI_V3 n rest tb2 bound2

/-- The round loop of phase 3 (lines 362-435) for a single rank: each round
takes `SYNC_INTERVAL_V3 = 64` prefixes, runs them with a freshly initialized
`threadBest` (bestLen = maxLen + 1), merges the thread best into the
process-local best (lines 403-414), and then performs the `MPI_Allreduce`
bound synchronization — which for one rank reduces the rank's own bound with
itself and CAS-folds a value that is never strictly smaller, leaving all state
unchanged, so it has no representation here.  The same holds for the catch-up
rounds of lines 442-453. -/
def roundsLoopMPI_V3 (fuel : Nat) (n maxLen : Int) (items : List WorkItemMPI_V3)
    (localBestLen : Int) (localBestMarks : List Int) (localBestNumMarks : Int)
    (bound : Int) : Option (Int × List Int × Int × Int) :=
  match fuel with
  | 0 => none
  | fuel + 1 =>
    match items with
    | [] => some (localBestLen, localBestMarks, localBestNumMarks, bound)
    | _ :: _ =>
      let thisRound := items.take 64
      let rest := items.drop 64
      match runPrefixesMPI_V3 n thisRound ⟨maxLen + 1, [], 0⟩ bound with
      | none => none
      | some (tb, bound2) =>
        if 0 < tb.bestNumMarks then
          if tb.bestLen < localBestLen then
            roundsLoopMPI_V3 fuel n maxLen rest tb.bestLen tb.bestMarks tb.bestNumMarks
              bound2
          else
            roundsLoopMPI_V3 fuel n maxLen rest localBestLen localBestMarks
              localBestNumMarks bound2
        else
          roundsLoopMPI_V3 fuel n maxLen rest localBestLen localBestMarks
            localBestNumMarks bound2

/-- C++ `searchGolombMPI_V3` (lines 306-489) for one MPI rank and one OpenMP
thread.  `maxLen` is clamped to MAX_LEN_V3 = 127 on entry (lines 308-310);
prefix generation starts from `reversed_marks = {bit 0}`,
`used_dist = empty`, one mark of length 0 (lines 334-341); with `size = 1`
every prefix lands on rank 0 (lines 351-355); the final reduction (lines
458-488) degenerates: rank 0 is the winner iff it stored any marks, in which
case the result is its local best, else the empty ruler; `computeLength` sets
the length field from the marks.  Returns `none` only if the internal kernel
fuel were insufficient, which never happens in the concrete runs below. -/
def searchGolombMPI_V3 (n maxLen0 : Int) : Option GolombRuler :=
  let maxLen := if 127 < maxLen0 then 127 else maxLen0
  let prefixDepth := computePrefixDepthMPI_V3 n 1 1
  let initial_reversed := (⟨0, 0⟩ : BitSet128_V3).set 0
  let allPrefixes := generatePrefixesMPI_V3 256 initial_reversed ⟨0, 0⟩ 1 0
    prefixDepth n (maxLen + 1)
  match roundsLoopMPI_V3 (allPrefixes.length + 1) n maxLen allPrefixes
      (maxLen + 1) [] 0 (maxLen + 1) with
  | none => none
  | some (_, localBestMarks, localBestNumMarks, _) =>
    if 0 < localBestNumMarks then
      some ⟨localBestMarks, computeLengthFrom localBestMarks⟩
    else
      some ⟨[], computeLengthFrom []⟩

/-- C1 evaluation at the failing input n = 2, L_max = 1, W = 1: the search
returns the empty result although the strictly ascending Golomb ruler [0, 1]
of order 2 is valid and has length 1 ≤ L_max.  The kernel records a solution
only when a newly placed mark brings the count to exactly n, and for n = 2 the
chosen prefix depth equals n, so the already-complete 2-mark prefixes are
never reported. -/
theorem searchGolombMPI_V3_c1_failing :
    searchGolombMPI_V3 2 1 = some ⟨[], 0⟩
    ∧ GolombRuler.isValid [0, 1] = true
    ∧ computeLengthFrom [0, 1] = 1 := by
  refine ⟨by decide, by decide, by decide⟩

/-- C2 evaluation at n = 2, L_max = 2 (which satisfies L_max ≥ 1), W = 1: the
search returns the empty result, not the ruler [0, 1] of length 1 that the
claim (and the spec's boundary-case table) requires. -/
theorem searchGolombMPI_V3_c2_failing :
    searchGolombMPI_V3 2 2 = some ⟨[], 0⟩
    ∧ searchGolombMPI_V3 2 2 ≠ some ⟨[0, 1], 1⟩ := by
  refine ⟨by decide, by decide⟩

/-- C7 counterexample: called with the out-of-range bound L_max = 128 > 127,
the search core does not surface an error and does not refuse to search — it
silently clamps the bound to MAX_LEN_V3 = 127, runs the full search, and
returns the optimal order-3 ruler [0, 1, 3]. -/
theorem searchGolombMPI_V3_c7_counterexample :
    searchGolombMPI_V3 3 128 = some ⟨[0, 1, 3], 3⟩
    ∧ searchGolombMPI_V3 3 128 = searchGolombMPI_V3 3 127 := by
  refine ⟨by set_option maxRecDepth 100000 in decide, by set_option maxRecDepth 100000 in decide⟩

/-- C7 amended: an L_max above 127 is not surfaced to the caller as an error
and does not prevent the search — `searchGolombMPI_V3` clamps it to
MAX_LEN_V3 = 127 on entry and runs the search normally, returning exactly the
result of the search with L_max = 127. -/
theorem searchGolombMPI_V3_clamps (n maxLen0 : Int) (h : 127 < maxLen0) :
    searchGolombMPI_V3 n maxLen0 = searchGolombMPI_V3 n 127 := by
  unfold searchGolombMPI_V3
  rw [if_pos h, if_neg (show ¬ ((127 : Int) < 127) by omega)]

/-- Witness for the amended C7 at n = 2, L_max = 200. -/
theorem searchGolombMPI_V3_clamps_witness :
    searchGolombMPI_V3 2 200 = searchGolombMPI_V3 2 127 :=
  searchGolombMPI_V3_clamps 2 200 (by norm_num)

-- ==========================================================================
-- Bitmap characterizations used for the reachability invariant (claim C3)
-- ==========================================================================

theorem exists_testBit_of_ne_zero (x : Nat) (h : x ≠ 0) : ∃ i, x.testBit i = true := by
  by_contra hc
  push_neg at hc
  apply h
  apply Nat.eq_of_testBit_eq
  intro i
  rw [Nat.zero_testBit]
  simpa using hc i

theorem BitSet128_V3.test_set_zero (a : BitSet128_V3) (p : Nat) :
    (a.set 0).test p = (decide (p = 0) || a.test p) := by
  unfold BitSet128_V3.set BitSet128_V3.test
  rw [if_pos (by norm_num : (0 : Nat) < 64)]
  by_cases hp : p < 64
  · rw [if_pos hp, if_pos hp]
    simp only [Nat.shiftLeft_zero, Nat.testBit_or]
    by_cases h0 : p = 0
    · subst h0
      simp
    · have h1 : (1 : Nat).testBit p = false :=
        Nat.testBit_lt_two_pow (by
          calc (1 : Nat) < 2 ^ 1 := by norm_num
          _ ≤ 2 ^ p := Nat.pow_le_pow_right (by norm_num) (by omega))
      simp [h0, h1]
  · rw [if_neg hp, if_neg hp]
    simp [show ¬ (p = 0) by omega]

theorem BitSet128_V3.test_land (a b : BitSet128_V3) (p : Nat) :
    (a.land b).test p = (a.test p && b.test p) := by
  unfold BitSet128_V3.land BitSet128_V3.test
  by_cases hp : p < 64 <;> simp [hp, Nat.testBit_and]

theorem BitSet128_V3.test_lxor (a b : BitSet128_V3) (p : Nat) :
    (a.lxor b).test p = (a.test p != b.test p) := by
  unfold BitSet128_V3.lxor BitSet128_V3.test
  by_cases hp : p < 64 <;> simp [hp, Nat.testBit_xor]

theorem BitSet128_V3.any_iff (a : BitSet128_V3) (ha : a.WF) :
    a.any = true ↔ ∃ p : Nat, a.test p = true := by
  obtain ⟨hlo, hhi⟩ := ha
  unfold BitSet128_V3.any
  constructor
  · intro h
    have hor : a.lo ||| a.hi ≠ 0 := by simpa using h
    by_cases hl : a.lo = 0
    · have hh : a.hi ≠ 0 := fun h2 => hor (by simp [hl, h2])
      obtain ⟨i, hi⟩ := exists_testBit_of_ne_zero a.hi hh
      have hilt : i < 64 := by
        by_contra hge
        rw [testBit_of_ge_64 a.hi i hhi (by omega)] at hi
        cases hi
      refine ⟨i + 64, ?_⟩
      unfold BitSet128_V3.test
      rw [if_neg (by omega)]
      simpa using hi
    · obtain ⟨i, hi⟩ := exists_testBit_of_ne_zero a.lo hl
      have hilt : i < 64 := by
        by_contra hge
        rw [testBit_of_ge_64 a.lo i hlo (by omega)] at hi
        cases hi
      refine ⟨i, ?_⟩
      unfold BitSet128_V3.test
      rw [if_pos hilt]
      exact hi
  · rintro ⟨p, hp⟩
    unfold BitSet128_V3.test at hp
    have hne : a.lo ||| a.hi ≠ 0 := by
      intro h0
      have hl : a.lo = 0 := by
        apply Nat.eq_of_testBit_eq
        intro i
        have := congrArg (fun x => x.testBit i) h0
        simp only [Nat.testBit_or, Nat.zero_testBit] at this
        rw [Nat.zero_testBit]
        exact (Bool.or_eq_false_iff.mp this).1
      have hh : a.hi = 0 := by
        apply Nat.eq_of_testBit_eq
        intro i
        have := congrArg (fun x => x.testBit i) h0
        simp only [Nat.testBit_or, Nat.zero_testBit] at this
        rw [Nat.zero_testBit]
        exact (Bool.or_eq_false_iff.mp this).2
      by_cases hpl : p < 64
      · rw [if_pos hpl, hl, Nat.zero_testBit] at hp
        cases hp
      · rw [if_neg hpl, hh, Nat.zero_testBit] at hp
        cases hp
    simpa using hne

theorem BitSet128_V3.set_zero_WF (a : BitSet128_V3) (ha : a.WF) : (a.set 0).WF := by
  obtain ⟨hlo, hhi⟩ := ha
  unfold BitSet128_V3.set
  rw [if_pos (by norm_num : (0 : Nat) < 64)]
  exact ⟨Nat.or_lt_two_pow hlo (by norm_num), hhi⟩

theorem BitSet128_V3.shl_WF (a : BitSet128_V3) (ha : a.WF) (n : Nat) : (a.shl n).WF := by
  obtain ⟨hlo, hhi⟩ := ha
  unfold BitSet128_V3.shl
  by_cases h0 : n = 0
  · rw [if_pos h0]
    exact ⟨hlo, hhi⟩
  · rw [if_neg h0]
    by_cases h128 : 128 ≤ n
    · rw [if_pos h128]
      exact ⟨by norm_num, by norm_num⟩
    · rw [if_neg h128]
      by_cases h64 : 64 ≤ n
      · rw [if_pos h64]
        exact ⟨by norm_num, Nat.mod_lt _ (by norm_num)⟩
      · rw [if_neg h64]
        refine ⟨Nat.mod_lt _ (by norm_num), ?_⟩
        exact Nat.or_lt_two_pow (Nat.mod_lt _ (by norm_num))
          (lt_of_le_of_lt (shiftRight_le_self _ _) hlo)

theorem BitSet128_V3.land_WF (a b : BitSet128_V3) (hb : b.WF) : (a.land b).WF :=
  ⟨Nat.and_lt_two_pow _ hb.1, Nat.and_lt_two_pow _ hb.2⟩

theorem BitSet128_V3.lxor_WF (a b : BitSet128_V3) (ha : a.WF) (hb : b.WF) : (a.lxor b).WF :=
  ⟨Nat.xor_lt_two_pow ha.1 hb.1, Nat.xor_lt_two_pow ha.2 hb.2⟩

-- ==========================================================================
-- Reachable search states and the REV-SHIFT invariant (claim C3)
-- ==========================================================================

/-- Reachable partial-ruler states of the MPI V3 search, carrying the abstract
mark set `M` alongside the concrete bitmaps.  The initial state is the 1-mark
ruler {0} with `reversed_marks = {bit 0}` and `used_dist` empty (lines
334-341 of search_mpi_v3.cpp).  An extension places a new mark at
`pos = l + δ` with `δ = offset = pos - ruler_length ≥ 1`, exactly as the
prefix generator (lines 160-175) and the kernel push (lines 224-266) do: the
collision test `(reversed_marks << offset) & used_dist` must be empty, the new
`reversed_marks` is the shifted bitmap with bit 0 set, the new `used_dist` is
the xor with the shifted bitmap.  Every `pos` either loop examines satisfies
`pos ≤ max_pos < bound ≤ maxLen + 1 ≤ 128`, whence the condition
`l + δ ≤ 127`. -/
inductive ReachableStateMPI_V3 :
    BitSet128_V3 → BitSet128_V3 → Nat → Finset Nat → Prop
  | init : ReachableStateMPI_V3 ((⟨0, 0⟩ : BitSet128_V3).set 0) ⟨0, 0⟩ 0 {0}
  | extend (rev used : BitSet128_V3) (l : Nat) (M : Finset Nat) (δ : Nat) :
      ReachableStateMPI_V3 rev used l M →
      1 ≤ δ → l + δ ≤ 127 →
      ((rev.shl δ).land used).any = false →
      ReachableStateMPI_V3 ((rev.shl δ).set 0) (used.lxor (rev.shl δ)) (l + δ)
        (insert (l + δ) M)

/-- The data invariant of a reachable state: the bitmaps are well-formed,
`reversed_marks` holds bit `l - m` (equivalently, bit `p` with `m + p = l`)
for exactly the marks `m ∈ M`, and `used_dist` holds bit `d` for exactly the
positive pairwise differences `d = b - a` of marks. -/
def StateInvMPI_V3 (rev used : BitSet128_V3) (l : Nat) (M : Finset Nat) : Prop :=
  rev.WF ∧ used.WF ∧ l ≤ 127 ∧ 0 ∈ M ∧ l ∈ M ∧ (∀ m ∈ M, m ≤ l)
  ∧ (∀ p : Nat, rev.test p = true ↔ ∃ m ∈ M, m + p = l)
  ∧ (∀ d : Nat, used.test d = true ↔ ∃ a ∈ M, ∃ b ∈ M, a < b ∧ a + d = b)

/-- Bits of the shifted `reversed_marks` bitmap, given the invariant of the
unshifted one: no bit is lost because every bit `l - m` lands at
`l - m + δ ≤ l + δ ≤ 127`. -/
theorem shl_bits_of_inv (rev : BitSet128_V3) (l : Nat) (M : Finset Nat)
    (hrevWF : rev.WF) (hmle : ∀ m ∈ M, m ≤ l)
    (hrev : ∀ p : Nat, rev.test p = true ↔ ∃ m ∈ M, m + p = l)
    (δ : Nat) (hδ2 : l + δ ≤ 127) :
    ∀ p : Nat, (rev.shl δ).test p = true ↔ ∃ m ∈ M, m + p = l + δ := by
  intro p
  by_cases hp : p ≤ 127
  · rw [BitSet128_V3.test_shl rev hrevWF δ p hp]
    constructor
    · intro hh
      simp only [Bool.and_eq_true, decide_eq_true_eq] at hh
      obtain ⟨hδp, ht⟩ := hh
      obtain ⟨m, hm, hme⟩ := (hrev (p - δ)).mp ht
      exact ⟨m, hm, by omega⟩
    · rintro ⟨m, hm, hme⟩
      have h3 : m ≤ l := hmle m hm
      have hδp : δ ≤ p := by omega
      simp only [Bool.and_eq_true, decide_eq_true_eq]
      refine ⟨hδp, ?_⟩
      rw [hrev (p - δ)]
      exact ⟨m, hm, by omega⟩
  · rw [BitSet128_V3.test_of_ge_128 _ (BitSet128_V3.shl_WF rev hrevWF δ) p (by omega)]
    constructor
    · intro hc
      cases hc
    · rintro ⟨m, hm, hme⟩
      omega

theorem reachable_inv (rev used : BitSet128_V3) (l : Nat) (M : Finset Nat)
    (h : ReachableStateMPI_V3 rev used l M) : StateInvMPI_V3 rev used l M := by
  induction h with
  | init =>
    refine ⟨⟨by decide, by decide⟩, ⟨by decide, by decide⟩, by norm_num, by simp, by simp,
      by simp, ?_, ?_⟩
    · intro p
      rw [BitSet128_V3.test_set_zero]
      have hz : (⟨0, 0⟩ : BitSet128_V3).test p = false := by
        unfold BitSet128_V3.test
        by_cases hp : p < 64 <;> simp [hp, Nat.zero_testBit]
      rw [hz, Bool.or_false, decide_eq_true_eq]
      constructor
      · intro hp0
        exact ⟨0, by simp, by omega⟩
      · rintro ⟨m, hm, hme⟩
        simp at hm
        omega
    · intro d
      have hz : (⟨0, 0⟩ : BitSet128_V3).test d = false := by
        unfold BitSet128_V3.test
        by_cases hp : d < 64 <;> simp [hp, Nat.zero_testBit]
      rw [hz]
      constructor
      · intro hc
        cases hc
      · rintro ⟨a, ha, b, hb, hab, _⟩
        simp at ha hb
        omega
  | extend rev used l M δ hre h1 h2 hcol ih =>
    obtain ⟨hrevWF, husedWF, hl, h0M, hlM, hmle, hrev, hused⟩ := ih
    have hshlWF : (rev.shl δ).WF := BitSet128_V3.shl_WF rev hrevWF δ
    have hdisj : ∀ p : Nat, ¬ ((rev.shl δ).test p = true ∧ used.test p = true) := by
      intro p hcon
      have hany : ((rev.shl δ).land used).any = true := by
        rw [BitSet128_V3.any_iff _ (BitSet128_V3.land_WF _ _ husedWF)]
        exact ⟨p, by rw [BitSet128_V3.test_land, hcon.1, hcon.2]; rfl⟩
      rw [hcol] at hany
      cases hany
    have hshl := shl_bits_of_inv rev l M hrevWF hmle hrev δ h2
    refine ⟨BitSet128_V3.set_zero_WF _ hshlWF,
      BitSet128_V3.lxor_WF _ _ husedWF hshlWF, h2, Finset.mem_insert_of_mem h0M,
      Finset.mem_insert_self _ _, ?_, ?_, ?_⟩
    · intro m hm
      rcases Finset.mem_insert.mp hm with h | h
      · omega
      · have := hmle m h
        omega
    · intro p
      rw [BitSet128_V3.test_set_zero, Bool.or_eq_true, decide_eq_true_eq, hshl p]
      constructor
      · rintro (h | ⟨m, hm, hme⟩)
        · exact ⟨l + δ, Finset.mem_insert_self _ _, by omega⟩
        · exact ⟨m, Finset.mem_insert_of_mem hm, hme⟩
      · rintro ⟨m, hm, hme⟩
        rcases Finset.mem_insert.mp hm with h | h
        · left
          omega
        · right
          exact ⟨m, h, hme⟩
    · intro d
      rw [BitSet128_V3.test_lxor]
      have hd := hdisj d
      constructor
      · intro hne
        have hor : used.test d = true ∨ (rev.shl δ).test d = true := by
          by_contra hno
          push_neg at hno
          obtain ⟨hno1, hno2⟩ := hno
          simp only [Bool.not_eq_true] at hno1 hno2
          rw [hno1, hno2] at hne
          cases hne
        rcases hor with hu | hs
        · obtain ⟨a, haM, b, hbM, hab, he⟩ := (hused d).mp hu
          exact ⟨a, Finset.mem_insert_of_mem haM, b, Finset.mem_insert_of_mem hbM, hab, he⟩
        · obtain ⟨m, hmM, hme⟩ := (hshl d).mp hs
          refine ⟨m, Finset.mem_insert_of_mem hmM, l + δ, Finset.mem_insert_self _ _,
            ?_, by omega⟩
          have := hmle m hmM
          omega
      · rintro ⟨a, haM, b, hbM, hab, he⟩
        rcases Finset.mem_insert.mp haM with ha2 | ha2
        · rcases Finset.mem_insert.mp hbM with hb2 | hb2
          · omega
          · have := hmle b hb2
            omega
        · rcases Finset.mem_insert.mp hbM with hb2 | hb2
          · have hs : (rev.shl δ).test d = true := by
              rw [hshl d]
              exact ⟨a, ha2, by omega⟩
            have hu : used.test d = false := by
              cases hcc : used.test d with
              | false => rfl
              | true => exact absurd ⟨hs, hcc⟩ hd
            rw [hs, hu]
            rfl
          · have hu : used.test d = true := by
              rw [hused d]
              exact ⟨a, ha2, b, hb2, hab, he⟩
            have hs : (rev.shl δ).test d = false := by
              cases hcc : (rev.shl δ).test d with
              | false => rfl
              | true => exact absurd ⟨hcc, hu⟩ hd
            rw [hs, hu]
            rfl

-- ==========================================================================
-- Claim C3
-- ==========================================================================

/-- C3: for every reachable search frame — a partial ruler with mark set `M`,
length `l`, bitmaps `reversed_marks = rev` and `used_dist = used` — and every
shift amount δ with 1 ≤ δ and l + δ ≤ 127, the set bits of `rev << δ` are
exactly the positions `(l + δ) - m` for `m ∈ M`; consequently the collision
test `((rev << δ) & used).any()` is true iff placing a new mark at `l + δ`
would duplicate a pairwise difference already present in the partial ruler:
some new difference `(l + δ) - m` equals some existing difference `b - a`. -/
theorem revShift_collision_spec (rev used : BitSet128_V3) (l : Nat) (M : Finset Nat)
    (hreach : ReachableStateMPI_V3 rev used l M) (δ : Nat) (hδ1 : 1 ≤ δ)
    (hδ2 : l + δ ≤ 127) :
    (∀ p : Nat, (rev.shl δ).test p = true ↔ ∃ m ∈ M, (l + δ) - m = p)
    ∧ (((rev.shl δ).land used).any = true ↔
        ∃ m ∈ M, ∃ a ∈ M, ∃ b ∈ M, a < b ∧ b - a = (l + δ) - m) := by
  obtain ⟨hrevWF, husedWF, hl, h0M, hlM, hmle, hrev, hused⟩ :=
    reachable_inv rev used l M hreach
  have hshlWF := BitSet128_V3.shl_WF rev hrevWF δ
  have hshl := shl_bits_of_inv rev l M hrevWF hmle hrev δ hδ2
  constructor
  · intro p
    rw [hshl p]
    constructor
    · rintro ⟨m, hm, hme⟩
      exact ⟨m, hm, by omega⟩
    · rintro ⟨m, hm, hme⟩
      have := hmle m hm
      exact ⟨m, hm, by omega⟩
  · rw [BitSet128_V3.any_iff _ (BitSet128_V3.land_WF _ _ husedWF)]
    constructor
    · rintro ⟨p, hp⟩
      rw [BitSet128_V3.test_land, Bool.and_eq_true] at hp
      obtain ⟨m, hmM, hme⟩ := (hshl p).mp hp.1
      obtain ⟨a, haM, b, hbM, hab, he⟩ := (hused p).mp hp.2
      have := hmle m hmM
      exact ⟨m, hmM, a, haM, b, hbM, hab, by omega⟩
    · rintro ⟨m, hmM, a, haM, b, hbM, hab, he⟩
      have hm2 := hmle m hmM
      have ha2 := hmle a haM
      have hb2 := hmle b hbM
      refine ⟨b - a, ?_⟩
      rw [BitSet128_V3.test_land, Bool.and_eq_true]
      constructor
      · rw [hshl (b - a)]
        exact ⟨m, hmM, by omega⟩
      · rw [hused (b - a)]
        exact ⟨a, haM, b, hbM, hab, by omega⟩

/-- Witness for C3 at the initial reachable state (ruler {0}) with δ = 1: the
single set bit of the shifted bitmap is position 1 = (0 + 1) - 0. -/
theorem revShift_collision_spec_witness :
    (((⟨0, 0⟩ : BitSet128_V3).set 0).shl 1).test 1 = true :=
  ((revShift_collision_spec _ _ 0 {0} ReachableStateMPI_V3.init 1 (le_refl 1)
    (by norm_num)).1 1).mpr ⟨0, by simp, by norm_num⟩

-- ==========================================================================
-- Termination of the iterative kernel (claim C9)
-- ==========================================================================

/-- The position at which the kernel's candidate loop resumes for a frame:
`next_candidate`, or `min_pos = ruler_length + 1` when the frame is fresh
(lines 211-214). -/
def effCursorMPI_V3 (f : StackFrameMPI_V3) : Int :=
  if f.next_candidate = 0 then f.ruler_length + 1 else f.next_candidate

/-- `max_pos` as computed at lines 207-209 of the kernel. -/
def maxPosOfMPI_V3 (n : Int) (f : StackFrameMPI_V3) (bound : Int) : Int :=
  bound - Int.tdiv ((n - f.marks_count - 1) * (n - f.marks_count)) 2 - 1

/-- Well-formedness of a kernel frame: the ruler length is in [0, 127] (every
mark position examined is below the bound ≤ maxLen + 1 ≤ 128), and the resume
cursor is either 0 (fresh frame) or a position strictly past the frame's own
length, at most 128. -/
def FrameWFMPI_V3 (f : StackFrameMPI_V3) : Prop :=
  0 ≤ f.ruler_length ∧ f.ruler_length ≤ 127
  ∧ (f.next_candidate = 0 ∨
      (f.ruler_length + 1 ≤ f.next_candidate ∧ f.next_candidate ≤ 128))

/-- Termination weight of one frame: frames with larger rulers weigh less
(children weigh less than the decrement of their parent's cursor), and within
a frame the weight falls as the cursor advances. -/
def frameWeightMPI_V3 (f : StackFrameMPI_V3) : Nat :=
  131 ^ ((128 - f.ruler_length).toNat) * ((130 - effCursorMPI_V3 f).toNat + 1)

/-- Termination measure of the whole stack. -/
def stackMeasureMPI_V3 (stack : List StackFrameMPI_V3) : Nat :=
  (stack.map frameWeightMPI_V3).sum

theorem frameWeight_pos (f : StackFrameMPI_V3) : 1 ≤ frameWeightMPI_V3 f := by
  unfold frameWeightMPI_V3
  exact Nat.mul_pos (pow_pos (by norm_num) _) (by omega)

/-- What the candidate scan guarantees about its result: the bound never
grows; a pushed child sits at or past the scan's start position, strictly
below the returned bound, with a fresh cursor, and the parent resumes right
after it. -/
def ScanOK (pos bound : Int) : ScanResultMPI_V3 → Prop
  | .exhausted _ bound2 => bound2 ≤ bound
  | .push pn child _ bound2 =>
      bound2 ≤ bound ∧ pos ≤ child.ruler_length ∧ child.ruler_length < bound2
      ∧ pn = child.ruler_length + 1 ∧ child.next_candidate = 0

theorem ScanOK_weaken (pos pos' bound bound' : Int) (r : ScanResultMPI_V3)
    (hp : pos ≤ pos') (hb : bound' ≤ bound) (h : ScanOK pos' bound' r) :
    ScanOK pos bound r := by
  cases r with
  | exhausted b2 bd2 => exact le_trans h hb
  | push pn child b2 bd2 =>
    obtain ⟨h1, h2, h3, h4, h5⟩ := h
    exact ⟨le_trans h1 hb, le_trans hp h2, h3, h4, h5⟩

theorem scanCandidates_ok (n : Int) (frame : StackFrameMPI_V3) :
    ∀ (cnt : Nat) (pos : Int) (best : ThreadBestMPI_V3) (bound : Int),
      ScanOK pos bound (scanCandidatesMPI_V3 n frame pos cnt best bound) := by
  intro cnt
  induction cnt with
  | zero =>
    intro pos best bound
    simp only [scanCandidatesMPI_V3]
    exact le_refl bound
  | succ cnt ih =>
    intro pos best bound
    simp only [scanCandidatesMPI_V3]
    by_cases hbp : bound ≤ pos
    · rw [if_pos hbp]
      exact le_refl bound
    · rw [if_neg hbp]
      by_cases hcol :
          ((frame.reversed_marks.shl (pos - frame.ruler_length).toNat).land
            frame.used_dist).any = true
      · rw [if_pos hcol]
        exact ScanOK_weaken pos (pos + 1) bound bound _ (by omega) (le_refl _)
          (ih (pos + 1) best bound)
      · rw [if_neg hcol]
        by_cases hn : frame.marks_count + 1 = n
        · rw [if_pos hn]
          by_cases hbest : pos < best.bestLen
          · rw [if_pos hbest]
            refine ScanOK_weaken _ _ _ _ _ ?_ ?_ (ih _ _ _)
            · omega
            · split_ifs <;> omega
          · rw [if_neg hbest]
            exact ScanOK_weaken pos (pos + 1) bound bound _ (by omega) (le_refl _)
              (ih (pos + 1) best bound)
        · rw [if_neg hn]
          refine ⟨le_refl _, ?_, ?_, rfl, rfl⟩
          · show pos ≤ pos
            omega
          · show pos < bound
            omega

/-- One unfolding of the kernel loop on a non-empty stack, with `startNext`
and `max_pos` written through `effCursorMPI_V3` and `maxPosOfMPI_V3`. -/
theorem backtrackLoop_cons (fuel : Nat) (n : Int) (frame : StackFrameMPI_V3)
    (rest : List StackFrameMPI_V3) (best : ThreadBestMPI_V3) (bound : Int) :
    backtrackLoopMPI_V3 (fuel + 1) n (frame :: rest) best bound =
      if bound ≤ frame.ruler_length +
          Int.tdiv ((n - frame.marks_count) * ((n - frame.marks_count) + 1)) 2 then
        backtrackLoopMPI_V3 fuel n rest best bound
      else
        match scanCandidatesMPI_V3 n frame (effCursorMPI_V3 frame)
            ((maxPosOfMPI_V3 n frame bound + 1 - effCursorMPI_V3 frame).toNat)
            best bound with
        | .exhausted best2 bound2 => backtrackLoopMPI_V3 fuel n rest best2 bound2
        | .push parentNext child best2 bound2 =>
          backtrackLoopMPI_V3 fuel n
            (child :: { frame with next_candidate := parentNext } :: rest) best2 bound2 :=
  rfl

/-- A pushed child together with its updated parent weighs strictly less than
the parent did before the push. -/
theorem push_measure_decrease (frame child : StackFrameMPI_V3) (pn : Int)
    (hf : FrameWFMPI_V3 frame)
    (heff1 : frame.ruler_length + 1 ≤ effCursorMPI_V3 frame)
    (heff2 : effCursorMPI_V3 frame ≤ 128)
    (hcl : effCursorMPI_V3 frame ≤ child.ruler_length)
    (hhi : child.ruler_length ≤ 127)
    (hpn : pn = child.ruler_length + 1)
    (hcur : child.next_candidate = 0) :
    frameWeightMPI_V3 child + frameWeightMPI_V3 { frame with next_candidate := pn }
      < frameWeightMPI_V3 frame := by
  obtain ⟨hra, hrb, _⟩ := hf
  have heffc : effCursorMPI_V3 child = child.ruler_length + 1 := by
    unfold effCursorMPI_V3
    rw [hcur, if_pos rfl]
  have heffp : effCursorMPI_V3 { frame with next_candidate := pn } = pn := by
    unfold effCursorMPI_V3
    have hx : ({ frame with next_candidate := pn }).next_candidate = pn := rfl
    rw [hx, if_neg (by omega)]
  unfold frameWeightMPI_V3
  rw [heffc, heffp]
  have hproj : ({ frame with next_candidate := pn }).ruler_length = frame.ruler_length := rfl
  rw [hproj]
  obtain ⟨e', hE⟩ : ∃ e', (128 - frame.ruler_length).toNat = e' + 1 :=
    ⟨(128 - frame.ruler_length).toNat - 1, by omega⟩
  rw [hE]
  have hb1 : 131 ^ ((128 - child.ruler_length).toNat) ≤ 131 ^ e' :=
    Nat.pow_le_pow_right (by norm_num) (by omega)
  have hb2 : (130 - (child.ruler_length + 1)).toNat + 1 ≤ 130 := by omega
  have hb3 : (130 - pn).toNat + 1 ≤ (130 - effCursorMPI_V3 frame).toNat := by omega
  have h1 : 131 ^ ((128 - child.ruler_length).toNat)
      * ((130 - (child.ruler_length + 1)).toNat + 1) ≤ 131 ^ e' * 130 :=
    Nat.mul_le_mul hb1 hb2
  have h2 : 131 ^ (e' + 1) * ((130 - pn).toNat + 1)
      ≤ 131 ^ (e' + 1) * (130 - effCursorMPI_V3 frame).toNat :=
    Nat.mul_le_mul_left _ hb3
  have h3 : 131 ^ e' * 130 + 131 ^ (e' + 1) * (130 - effCursorMPI_V3 frame).toNat
      < 131 ^ (e' + 1) * ((130 - effCursorMPI_V3 frame).toNat + 1) := by
    rw [Nat.pow_succ]
    have hp : 0 < 131 ^ e' := pow_pos (by norm_num) _
    calc 131 ^ e' * 130 + 131 ^ e' * 131 * (130 - effCursorMPI_V3 frame).toNat
        < 131 ^ e' * 131 + 131 ^ e' * 131 * (130 - effCursorMPI_V3 frame).toNat := by
          have hlt : 131 ^ e' * 130 < 131 ^ e' * 131 :=
            mul_lt_mul_of_pos_left (by norm_num) hp
          omega
      _ = 131 ^ e' * 131 * ((130 - effCursorMPI_V3 frame).toNat + 1) := by ring
  calc 131 ^ ((128 - child.ruler_length).toNat)
        * ((130 - (child.ruler_length + 1)).toNat + 1)
      + 131 ^ (e' + 1) * ((130 - pn).toNat + 1)
      ≤ 131 ^ e' * 130 + 131 ^ (e' + 1) * (130 - effCursorMPI_V3 frame).toNat := by
        omega
    _ < 131 ^ (e' + 1) * ((130 - effCursorMPI_V3 frame).toNat + 1) := h3

theorem backtrackLoop_term_aux :
    ∀ (fuel : Nat) (stack : List StackFrameMPI_V3) (n : Int) (best : ThreadBestMPI_V3)
      (bound : Int), bound ≤ 128 → (∀ f ∈ stack, FrameWFMPI_V3 f) →
      stackMeasureMPI_V3 stack < fuel →
      ∃ result, backtrackLoopMPI_V3 fuel n stack best bound = some result := by
  intro fuel
  induction fuel with
  | zero =>
    intro stack n best bound _ _ hm
    exact absurd hm (Nat.not_lt_zero _)
  | succ fuel ih =>
    intro stack n best bound hb hwf hm
    cases stack with
    | nil => exact ⟨(best, bound), rfl⟩
    | cons frame rest =>
      have hwfr : ∀ f ∈ rest, FrameWFMPI_V3 f := fun f hf => hwf f (List.mem_cons_of_mem _ hf)
      have hwff : FrameWFMPI_V3 frame := hwf frame (List.mem_cons_self _ _)
      have hw1 : 1 ≤ frameWeightMPI_V3 frame := frameWeight_pos frame
      have hmeq : stackMeasureMPI_V3 (frame :: rest) =
          frameWeightMPI_V3 frame + stackMeasureMPI_V3 rest := by
        simp [stackMeasureMPI_V3]
      rw [backtrackLoop_cons]
      by_cases hprune : bound ≤ frame.ruler_length +
          Int.tdiv ((n - frame.marks_count) * ((n - frame.marks_count) + 1)) 2
      · rw [if_pos hprune]
        exact ih rest n best bound hb hwfr (by omega)
      · rw [if_neg hprune]
        have hscan := scanCandidates_ok n frame
          ((maxPosOfMPI_V3 n frame bound + 1 - effCursorMPI_V3 frame).toNat)
          (effCursorMPI_V3 frame) best bound
        cases hres : scanCandidatesMPI_V3 n frame (effCursorMPI_V3 frame)
            ((maxPosOfMPI_V3 n frame bound + 1 - effCursorMPI_V3 frame).toNat)
            best bound with
        | exhausted best2 bound2 =>
          rw [hres] at hscan
          exact ih rest n best2 bound2 (le_trans hscan hb) hwfr (by omega)
        | push pn child best2 bound2 =>
          rw [hres] at hscan
          obtain ⟨hs1, hs2, hs3, hs4, hs5⟩ := hscan
          have heff : frame.ruler_length + 1 ≤ effCursorMPI_V3 frame
              ∧ effCursorMPI_V3 frame ≤ 128 := by
            unfold effCursorMPI_V3
            obtain ⟨ha, hb2, hc⟩ := hwff
            split_ifs with h0
            · omega
            · rcases hc with hcc | hcc
              · exact absurd hcc h0
              · omega
          have hchild_lo : frame.ruler_length + 1 ≤ child.ruler_length :=
            le_trans heff.1 hs2
          have hchild_hi : child.ruler_length ≤ 127 := by
            have h4 := le_trans hs1 hb
            omega
          have hra := hwff.1
          have hrb := hwff.2.1
          have hwfchild : FrameWFMPI_V3 child := ⟨by omega, hchild_hi, Or.inl hs5⟩
          have hwfparent : FrameWFMPI_V3 { frame with next_candidate := pn } := by
            refine ⟨?_, ?_, Or.inr ⟨?_, ?_⟩⟩
            · show 0 ≤ frame.ruler_length
              omega
            · show frame.ruler_length ≤ 127
              omega
            · show frame.ruler_length + 1 ≤ pn
              omega
            · show pn ≤ 128
              omega
          have hwfnew : ∀ f ∈ child :: { frame with next_candidate := pn } :: rest,
              FrameWFMPI_V3 f := by
            intro f hf
            rcases List.mem_cons.mp hf with h | hf2
            · subst h
              exact hwfchild
            · rcases List.mem_cons.mp hf2 with h | hf3
              · subst h
                exact hwfparent
              · exact hwfr f hf3
          have hdec := push_measure_decrease frame child pn hwff heff.1 heff.2 hs2
            hchild_hi hs4 hs5
          have hmnew : stackMeasureMPI_V3
              (child :: { frame with next_candidate := pn } :: rest) =
              frameWeightMPI_V3 child
              + frameWeightMPI_V3 { frame with next_candidate := pn }
              + stackMeasureMPI_V3 rest := by
            simp [stackMeasureMPI_V3]
            omega
          exact ih _ n best2 bound2 (le_trans hs1 hb) hwfnew (by omega)

-- ==========================================================================
-- Claim C9
-- ==========================================================================

/-- C9: the iterative kernel `backtrackIterativeMPI_V3` terminates — the
outer `while` loop empties the stack after finitely many iterations — from
any stack of well-formed frames (in particular the single-frame stacks seeded
from prefixes generated with ruler length ≤ 127 and fresh cursor 0), for any
`n` and any bound value at most `L_max + 1 ≤ 128`: the explicit fuel
`stackMeasureMPI_V3 stack + 1` suffices, because `next_candidate` strictly
increases within a frame and every pushed child starts strictly further right
and strictly below the bound. -/
theorem backtrackIterative_terminates (n : Int) (stack : List StackFrameMPI_V3)
    (best : ThreadBestMPI_V3) (bound : Int) (hb : bound ≤ 128)
    (hwf : ∀ f ∈ stack, FrameWFMPI_V3 f) :
    ∃ result, backtrackLoopMPI_V3 (stackMeasureMPI_V3 stack + 1) n stack best bound
      = some result :=
  backtrackLoop_term_aux (stackMeasureMPI_V3 stack + 1) stack n best bound hb hwf
    (by omega)

/-- Witness for C9: the kernel terminates on the initial 1-mark frame of the
n = 2 search with the fresh bound 128. -/
theorem backtrackIterative_terminates_witness :
    ∃ result, backtrackLoopMPI_V3
      (stackMeasureMPI_V3 [⟨(⟨0, 0⟩ : BitSet128_V3).set 0, ⟨0, 0⟩, 1, 0, 0⟩] + 1) 2
      [⟨(⟨0, 0⟩ : BitSet128_V3).set 0, ⟨0, 0⟩, 1, 0, 0⟩] ⟨128, [], 0⟩ 128 = some result :=
  backtrackIterative_terminates 2 [⟨(⟨0, 0⟩ : BitSet128_V3).set 0, ⟨0, 0⟩, 1, 0, 0⟩]
    ⟨128, [], 0⟩ 128 (by norm_num)
    (by
      intro f hf
      rw [List.mem_singleton] at hf
      subst hf
      exact ⟨by norm_num, by norm_num, Or.inl rfl⟩)
